import Mathlib

/-!
Shallow embedding of the BMesh Bend addon (`bmesh_bend/__init__.py`).

The mathutils vector/matrix/quaternion arithmetic is modelled over the
reals; curve sampling, frame building, the cumulative arc-length table,
the rest-pose cache and the per-vertex deformation pass are translated
from the Python source.  Claims of the specification are then stated and
settled as theorems about these definitions.
-/

noncomputable section

/-- Component model of `mathutils.Vector` (3d). -/
structure Vec3 where
  x : ℝ
  y : ℝ
  z : ℝ

namespace Vec3

@[ext] theorem vext {a b : Vec3} (hx : a.x = b.x) (hy : a.y = b.y) (hz : a.z = b.z) :
    a = b := by
  cases a; cases b; simp_all

instance : Zero Vec3 := ⟨⟨0, 0, 0⟩⟩

instance : Add Vec3 := ⟨fun a b => ⟨a.x + b.x, a.y + b.y, a.z + b.z⟩⟩

instance : Sub Vec3 := ⟨fun a b => ⟨a.x - b.x, a.y - b.y, a.z - b.z⟩⟩

instance : Neg Vec3 := ⟨fun a => ⟨-a.x, -a.y, -a.z⟩⟩

instance : SMul ℝ Vec3 := ⟨fun r a => ⟨r * a.x, r * a.y, r * a.z⟩⟩

@[simp] theorem zero_x : (0 : Vec3).x = 0 := rfl

@[simp] theorem zero_y : (0 : Vec3).y = 0 := rfl

@[simp] theorem zero_z : (0 : Vec3).z = 0 := rfl

@[simp] theorem add_x (a b : Vec3) : (a + b).x = a.x + b.x := rfl

@[simp] theorem add_y (a b : Vec3) : (a + b).y = a.y + b.y := rfl

@[simp] theorem add_z (a b : Vec3) : (a + b).z = a.z + b.z := rfl

@[simp] theorem sub_x (a b : Vec3) : (a - b).x = a.x - b.x := rfl

@[simp] theorem sub_y (a b : Vec3) : (a - b).y = a.y - b.y := rfl

@[simp] theorem sub_z (a b : Vec3) : (a - b).z = a.z - b.z := rfl

@[simp] theorem neg_x (a : Vec3) : (-a).x = -a.x := rfl

@[simp] theorem neg_y (a : Vec3) : (-a).y = -a.y := rfl

@[simp] theorem neg_z (a : Vec3) : (-a).z = -a.z := rfl

@[simp] theorem smul_x (r : ℝ) (a : Vec3) : (r • a).x = r * a.x := rfl

@[simp] theorem smul_y (r : ℝ) (a : Vec3) : (r • a).y = r * a.y := rfl

@[simp] theorem smul_z (r : ℝ) (a : Vec3) : (r • a).z = r * a.z := rfl

/-- `mathutils.Vector.dot`. -/
def dot (a b : Vec3) : ℝ := a.x * b.x + a.y * b.y + a.z * b.z

/-- `mathutils.Vector.cross`. -/
def cross (a b : Vec3) : Vec3 :=
  ⟨a.y * b.z - a.z * b.y, a.z * b.x - a.x * b.z, a.x * b.y - a.y * b.x⟩

/-- `mathutils.Vector.length`. -/
def length (v : Vec3) : ℝ := Real.sqrt (v.dot v)

/-- `mathutils.Vector.normalized`: the zero vector normalizes to the zero
vector (Blender's `normalize_v3` leaves degenerate input at zero). -/
def normalized (v : Vec3) : Vec3 := if v.length = 0 then 0 else (1 / v.length) • v

/-- `mathutils.Vector.lerp` (`interp_v3_v3v3`). -/
def lerp (a b : Vec3) (t : ℝ) : Vec3 := (1 - t) • a + t • b

/-- Python subscript read `v[i]` for `i` in `{0, 1, 2}`. -/
def get (v : Vec3) : ℕ → ℝ
  | 0 => v.x
  | 1 => v.y
  | _ => v.z

/-- Python subscript write `v[i] = r` for `i` in `{0, 1, 2}`. -/
def set (v : Vec3) (i : ℕ) (r : ℝ) : Vec3 :=
  match i with
  | 0 => ⟨r, v.y, v.z⟩
  | 1 => ⟨v.x, r, v.z⟩
  | _ => ⟨v.x, v.y, r⟩

end Vec3

/-- Component model of a homogeneous `mathutils` spline point (`p.co` is 4d). -/
structure Vec4 where
  x : ℝ
  y : ℝ
  z : ℝ
  w : ℝ

/-- Row-major 3x3 matrix; `mulVec` matches `Matrix @ Vector` of mathutils. -/
structure Mat3 where
  r0 : Vec3
  r1 : Vec3
  r2 : Vec3

namespace Mat3

def mulVec (m : Mat3) (v : Vec3) : Vec3 := ⟨m.r0.dot v, m.r1.dot v, m.r2.dot v⟩

def transpose (m : Mat3) : Mat3 :=
  ⟨⟨m.r0.x, m.r1.x, m.r2.x⟩, ⟨m.r0.y, m.r1.y, m.r2.y⟩, ⟨m.r0.z, m.r1.z, m.r2.z⟩⟩

def det (m : Mat3) : ℝ := m.r0.dot (m.r1.cross m.r2)

/-- Matrix inverse by cofactors (`mathutils.Matrix.inverted` on the linear
part; junk on singular input, which the addon never feeds it). -/
def inv (m : Mat3) : Mat3 :=
  let u := m.r1.cross m.r2
  let v := m.r2.cross m.r0
  let w := m.r0.cross m.r1
  let d := m.det
  ⟨⟨u.x / d, v.x / d, w.x / d⟩, ⟨u.y / d, v.y / d, w.y / d⟩, ⟨u.z / d, v.z / d, w.z / d⟩⟩

end Mat3

def idMat : Mat3 := ⟨⟨1, 0, 0⟩, ⟨0, 1, 0⟩, ⟨0, 0, 1⟩⟩

/-- A Blender object world matrix: affine map (linear part plus translation).
`apply` is `matrix_world @ point`; `lin` is `matrix_world.to_3x3()`. -/
structure Aff where
  lin : Mat3
  tr : Vec3

namespace Aff

def apply (A : Aff) (v : Vec3) : Vec3 := A.lin.mulVec v + A.tr

/-- `matrix_world.inverted()` restricted to affine matrices. -/
def inv (A : Aff) : Aff := ⟨A.lin.inv, -(A.lin.inv.mulVec A.tr)⟩

end Aff

def affId : Aff := ⟨idMat, 0⟩

/-- Component model of `mathutils.Quaternion` (w, x, y, z). -/
structure Quat where
  w : ℝ
  x : ℝ
  y : ℝ
  z : ℝ

def qOne : Quat := ⟨1, 0, 0, 0⟩

namespace Quat

def dotQ (a b : Quat) : ℝ := a.w * b.w + a.x * b.x + a.y * b.y + a.z * b.z

def negQ (a : Quat) : Quat := ⟨-a.w, -a.x, -a.y, -a.z⟩

/-- `mathutils.Quaternion.slerp` (Blender `interp_qt_qtqt`): shortest-arc
sign fix, then spherical weights, with a linear fallback near alignment. -/
def slerp (a b : Quat) (t : ℝ) : Quat :=
  let cosom := a.dotQ b
  let bb := if cosom < 0 then b.negQ else b
  let cosom := if cosom < 0 then -cosom else cosom
  let w1 := if 1 - cosom > 0.0001 then
      Real.sin ((1 - t) * Real.arccos cosom) / Real.sin (Real.arccos cosom)
    else 1 - t
  let w2 := if 1 - cosom > 0.0001 then
      Real.sin (t * Real.arccos cosom) / Real.sin (Real.arccos cosom)
    else t
  ⟨w1 * a.w + w2 * bb.w, w1 * a.x + w2 * bb.x, w1 * a.y + w2 * bb.y, w1 * a.z + w2 * bb.z⟩

end Quat

/-- `mathutils.Quaternion.to_matrix` (Blender `quat_to_mat3`, unit input). -/
def quatToMat (q : Quat) : Mat3 :=
  ⟨⟨1 - 2 * (q.y * q.y + q.z * q.z), 2 * (q.x * q.y - q.w * q.z), 2 * (q.x * q.z + q.w * q.y)⟩,
   ⟨2 * (q.x * q.y + q.w * q.z), 1 - 2 * (q.x * q.x + q.z * q.z), 2 * (q.y * q.z - q.w * q.x)⟩,
   ⟨2 * (q.x * q.z - q.w * q.y), 2 * (q.y * q.z + q.w * q.x), 1 - 2 * (q.x * q.x + q.y * q.y)⟩⟩

/-- `mathutils.Matrix.to_quaternion` (Blender `mat3_normalized_to_quat_fast`),
written for the row convention of `Mat3`; the exact branch arithmetic is
irrelevant to every claim below, only that it is a pure total function. -/
def mat3_to_quat (m : Mat3) : Quat :=
  let m00 := m.r0.x
  let m01 := m.r0.y
  let m02 := m.r0.z
  let m10 := m.r1.x
  let m11 := m.r1.y
  let m12 := m.r1.z
  let m20 := m.r2.x
  let m21 := m.r2.y
  let m22 := m.r2.z
  if m22 < 0 then
    if m11 < m00 then
      let s0 := 2 * Real.sqrt (1 + m00 - m11 - m22)
      let s := if m21 < m12 then -s0 else s0
      ⟨(m21 - m12) / s, s / 4, (m10 + m01) / s, (m02 + m20) / s⟩
    else
      let s0 := 2 * Real.sqrt (1 - m00 + m11 - m22)
      let s := if m02 < m20 then -s0 else s0
      ⟨(m02 - m20) / s, (m10 + m01) / s, s / 4, (m21 + m12) / s⟩
  else
    if m00 < -m11 then
      let s0 := 2 * Real.sqrt (1 - m00 - m11 + m22)
      let s := if m10 < m01 then -s0 else s0
      ⟨(m10 - m01) / s, (m02 + m20) / s, (m21 + m12) / s, s / 4⟩
    else
      let s := 2 * Real.sqrt (1 + m00 + m11 + m22)
      ⟨s / 4, (m21 - m12) / s, (m02 - m20) / s, (m10 - m01) / s⟩

/-- Python `min(...)` over a non-empty float sequence (0 stands in for the
`ValueError` of the empty case, which the claims never exercise). -/
def listMin : List ℝ → ℝ
  | [] => 0
  | a :: l => l.foldl min a

/-- Python `max(...)` over a non-empty float sequence. -/
def listMax : List ℝ → ℝ
  | [] => 0
  | a :: l => l.foldl max a

/-- Python list subscript with negative-index wraparound. -/
def pyGet (l : List Vec3) (i : ℤ) : Vec3 :=
  if i < 0 then l.getD ((l.length : ℤ) + i).toNat 0 else l.getD i.toNat 0

/-!
Curve model.  A spline either exposes Blender's continuous evaluation
primitives (`spline.evaluate` / `spline.evaluate_derivative`, modelled as a
pair of functions) or only its control points, in which case `sample_curve`
falls back to piecewise-linear interpolation (lines 85-108 of the source).
-/

/-- One spline of the evaluated curve datablock. -/
structure Spline where
  evalFn : Option ((ℝ → Vec3) × (ℝ → Vec3))
  bezier_points : List Vec3
  points : List Vec4

/-- The evaluated curve object: its world matrix and its splines. -/
structure CurveObj where
  matrix_world : Aff
  splines : List Spline

/-- Fallback control coordinates (source lines 87-92): bezier handles first,
else homogeneous points divided by `w` (or by 1 when `w` is zero). -/
def splineCoords (sp : Spline) : List Vec3 :=
  match sp.bezier_points with
  | b :: bs => b :: bs
  | [] => sp.points.map fun p =>
      (1 / (if p.w = 0 then 1 else p.w)) • (⟨p.x, p.y, p.z⟩ : Vec3)

/-- Skip test of source line 83: fewer than two defining points. -/
def splineUsable (sp : Spline) : Prop :=
  2 ≤ sp.bezier_points.length + sp.points.length

instance (sp : Spline) : Decidable (splineUsable sp) := by
  unfold splineUsable; infer_instance

/-- One raw `(point, tangent)` sample of one spline at `u = i / resolution`
(source lines 93-109, before tangent normalization). -/
def splineSampleAt (M : Aff) (sp : Spline) (res : ℕ) (i : ℕ) : Vec3 × Vec3 :=
  let u : ℝ := (i : ℝ) / (res : ℝ)
  match sp.evalFn with
  | some fns => (M.apply (fns.1 u), M.lin.mulVec (fns.2 u))
  | none =>
      let coords := splineCoords sp
      let n : ℤ := (coords.length : ℤ)
      let seg : ℝ := u * ((coords.length : ℝ) - 1)
      let idx0 : ℤ := ⌊seg⌋
      let idx : ℤ := if n - 1 ≤ idx0 then n - 2 else idx0
      let frac : ℝ := if n - 1 ≤ idx0 then 1 else seg - (idx0 : ℝ)
      let p0 := pyGet coords idx
      let p1 := pyGet coords (idx + 1)
      (M.apply (p0.lerp p1 frac), M.lin.mulVec (p1 - p0))

/-- All raw samples of one spline (empty when the spline is skipped). -/
def sampleSplineRaw (M : Aff) (sp : Spline) (res : ℕ) : List (Vec3 × Vec3) :=
  if sp.bezier_points.length + sp.points.length < 2 then []
  else (List.range (res + 1)).map (splineSampleAt M sp res)

/-- Raw samples of a spline list, concatenated in spline order. -/
def splinesSamples (M : Aff) (res : ℕ) : List Spline → List (Vec3 × Vec3)
  | [] => []
  | sp :: rest => sampleSplineRaw M sp res ++ splinesSamples M res rest

/-- All raw `(point, tangent)` samples of the curve. -/
def curveSamplesRaw (c : CurveObj) (res : ℕ) : List (Vec3 × Vec3) :=
  splinesSamples c.matrix_world res c.splines

/-- The `points` list built by `sample_curve`. -/
def sampledPoints (c : CurveObj) (res : ℕ) : List Vec3 :=
  (curveSamplesRaw c res).map Prod.fst

/-- The `tangents` list built by `sample_curve` (tangents normalized on
append, source line 110). -/
def sampledTangents (c : CurveObj) (res : ℕ) : List Vec3 :=
  (curveSamplesRaw c res).map fun pr => pr.2.normalized

/-- The global up vector of the frame builder (source line 116). -/
def upVec : Vec3 := ⟨0, 0, 1⟩

/-- Clamped-arccos angle between two vectors (`mathutils.Vector.angle`). -/
def vangle (a b : Vec3) : ℝ :=
  Real.arccos (max (-1) (min 1 (a.dot b / (a.length * b.length))))

/-- `Matrix.Rotation(angle, 3, axis) @ v` for a unit axis, in Rodrigues
vector form. -/
def rotVec (angle : ℝ) (k v : Vec3) : Vec3 :=
  Real.cos angle • v + Real.sin angle • k.cross v +
    ((1 - Real.cos angle) * k.dot v) • k

/-- The frame loop of `sample_curve` (source lines 121-129): each frame is
appended from the running `normal` BEFORE that normal is rotated from the
previous tangent onto the current one. -/
def buildFrames (normal prev : Vec3) : List Vec3 → List (Vec3 × Vec3 × Vec3)
  | [] => []
  | t :: ts =>
      let binormal := (t.cross normal).normalized
      let fr := (t.normalized, normal.normalized, binormal)
      let axis := prev.cross t
      let normal' := if axis.length > 1e-6 then
          (rotVec (vangle prev t) axis.normalized normal).normalized
        else normal
      fr :: buildFrames normal' t ts

/-- Cumulative distances after the head entry (source lines 130-132). -/
def arcAux (acc : ℝ) (prev : Vec3) : List Vec3 → List ℝ
  | [] => []
  | p :: rest => (acc + (p - prev).length) :: arcAux (acc + (p - prev).length) p rest

/-- The `lengths` table of `sample_curve`: `0` first, then cumulative
point-to-point distances. -/
def arcLengths : List Vec3 → List ℝ
  | [] => []
  | p :: rest => 0 :: arcAux 0 p rest

/-- `sample_curve(curve_obj, depsgraph, resolution)` (source lines 75-133):
returns `(points, frames, lengths)`; `([], [], [])` when no samples. -/
def sample_curve (c : CurveObj) (res : ℕ) :
    List Vec3 × List (Vec3 × Vec3 × Vec3) × List ℝ :=
  let points := sampledPoints c res
  let tangents := sampledTangents c res
  match curveSamplesRaw c res with
  | [] => ([], [], [])
  | _ :: _ =>
      let t0 := tangents.headD 0
      let normal0 := (upVec - upVec.dot t0 • t0).normalized
      (points, buildFrames normal0 t0 tangents, arcLengths points)

/-!
Deformation.  `AXIS_MAP` (source lines 22-29), the per-object cache
(lines 38-69) and `deform_object` (lines 139-192).  Blender state that the
addon reads is bundled into `MeshObj` / `ObjState`; the module-level cache
dictionary entry of one object is the `Cache` record.
-/

/-- The six deform-axis options of `AXIS_MAP`. -/
inductive Axis
  | X | negX | Y | negY | Z | negZ

/-- First component of `AXIS_MAP[axis]`. -/
def axisIdx : Axis → ℕ
  | .X => 0
  | .negX => 0
  | .Y => 1
  | .negY => 1
  | .Z => 2
  | .negZ => 2

/-- Second component of `AXIS_MAP[axis]`. -/
def axisSign : Axis → ℤ
  | .X => 1
  | .negX => -1
  | .Y => 1
  | .negY => -1
  | .Z => 1
  | .negZ => -1

/-- A mesh object: its live vertex coordinates and its world matrix. -/
structure MeshObj where
  verts : List Vec3
  matrix_world : Aff

/-- The runtime cache entry of one object (`_RUNTIME_CACHE[key]`): the two
keys written by `cache_original_coords`. -/
structure Cache where
  orig_coords : Option (List Vec3)
  cached_matrix : Option Aff

/-- One deformable object together with its cache entry. -/
structure ObjState where
  mesh : MeshObj
  cache : Cache

/-- `cache_original_coords(obj)` (source lines 54-58): snapshot coordinates
and world matrix only when no snapshot exists yet. -/
def cache_original_coords (st : ObjState) : ObjState :=
  match st.cache.orig_coords with
  | some _ => st
  | none =>
      { st with cache := ⟨some st.mesh.verts, some st.mesh.matrix_world⟩ }

/-- Overwrite a prefix of `verts` with `news`, vertex-index aligned; Python
`zip` truncates to the shorter list and the remaining vertices keep their
live values (used by both `restore_original_coords` and `deform_object`). -/
def writeZip (verts news : List Vec3) : List Vec3 :=
  List.zipWith (fun _ c => c) verts news ++
    verts.drop (min verts.length news.length)

/-- `restore_original_coords(obj)` (source lines 61-69). -/
def restore_original_coords (st : ObjState) : ObjState :=
  match st.cache.orig_coords with
  | none => st
  | some l =>
      { st with mesh := { st.mesh with verts := writeZip st.mesh.verts l } }

/-- Clamp of the mapped arc-length position (source line 171). -/
def clampS (curveLen s : ℝ) : ℝ := max 0 (min curveLen s)

/-- The bracketing-index search of source lines 172-176: the while loop
stops at the first table entry not below `s`, and the index is pulled back
to the last entry when the loop ran off the end. -/
def locateI1 (lengths : List ℝ) (s : ℝ) : ℕ :=
  let i1 := (lengths.takeWhile fun x => x < s).length
  if lengths.length ≤ i1 then lengths.length - 1 else i1

/-- `frac` of source lines 177-179 (shared by position and orientation). -/
def segFrac (lengths : List ℝ) (s : ℝ) : ℝ :=
  let i1 := locateI1 lengths s
  let i0 := i1 - 1
  let segLen := lengths.getD i1 0 - lengths.getD i0 0
  if segLen = 0 then 0 else (s - lengths.getD i0 0) / segLen

/-- Interpolated curve position at clamped arc length `s` (source line 180). -/
def interpPoint (points : List Vec3) (lengths : List ℝ) (s : ℝ) : Vec3 :=
  let i1 := locateI1 lengths s
  let i0 := i1 - 1
  (points.getD i0 0).lerp (points.getD i1 0) (segFrac lengths s)

/-- Interpolated orientation at clamped arc length `s` (source line 181). -/
def slerpQuat (quats : List Quat) (lengths : List ℝ) (s : ℝ) : Quat :=
  let i1 := locateI1 lengths s
  let i0 := i1 - 1
  (quats.getD i0 qOne).slerp (quats.getD i1 qOne) (segFrac lengths s)

/-- `mat[0] *= -1` of source line 184: scale the first matrix row by -1. -/
def negRow0 (m : Mat3) : Mat3 := ⟨(-1 : ℝ) • m.r0, m.r1, m.r2⟩

/-- `frame_to_quat` (source lines 161-163). -/
def frame_to_quat (f : Vec3 × Vec3 × Vec3) : Quat :=
  mat3_to_quat (Mat3.transpose ⟨f.1, f.2.1, f.2.2⟩)

/-- Body of the per-vertex loop of `deform_object` (source lines 169-189),
producing the new local coordinate written to `v.co`. -/
def deformVertex (points : List Vec3) (lengths : List ℝ) (quats : List Quat)
    (curveLen : ℝ) (k : ℕ) (sgn : ℤ) (bboxMin startPos strength : ℝ)
    (cachedM world : Aff) (orig : Vec3) : Vec3 :=
  let s := clampS curveLen (startPos + (orig.get k - bboxMin))
  let mat := quatToMat (slerpQuat quats lengths s)
  let mat2 := if sgn = -1 then negRow0 mat else mat
  let offset := orig.set k 0
  let world_offset := cachedM.lin.mulVec offset
  let new_world := interpPoint points lengths s + strength • mat2.mulVec world_offset
  world.inv.apply new_world

/-- `cache['orig_coords']` as read by `deform_object` after the
capture-on-first-use of source line 141 (`[]` stands for the impossible
missing-key case). -/
def origCoordsOf (st : ObjState) : List Vec3 :=
  (cache_original_coords st).cache.orig_coords.getD []

/-- `cache.get('cached_matrix', obj.matrix_world)` of source line 144. -/
def cachedMatrixOf (st : ObjState) : Aff :=
  (cache_original_coords st).cache.cached_matrix.getD st.mesh.matrix_world

/-- `bbox_min` of source line 150. -/
def bboxMinOf (st : ObjState) (k : ℕ) : ℝ :=
  listMin ((origCoordsOf st).map fun co => co.get k)

/-- `bbox_max` of source line 151. -/
def bboxMaxOf (st : ObjState) (k : ℕ) : ℝ :=
  listMax ((origCoordsOf st).map fun co => co.get k)

/-- `bbox_len` of source line 152. -/
def bboxLenOf (st : ObjState) (k : ℕ) : ℝ :=
  max (bboxMaxOf st k - bboxMinOf st k) 1e-6

/-- `curve_len` of source line 166. -/
def curveLenOf (curve : CurveObj) (res : ℕ) : ℝ :=
  (sample_curve curve res).2.2.getLastD 0

/-- The `quats` list of source line 165. -/
def quatsOf (curve : CurveObj) (res : ℕ) : List Quat :=
  (sample_curve curve res).2.1.map frame_to_quat

/-- `start_pos` of source line 167. -/
def startPosOf (st : ObjState) (curve : CurveObj) (res : ℕ) (k : ℕ)
    (anim_factor : ℝ) : ℝ :=
  anim_factor * max (curveLenOf curve res - bboxLenOf st k) 0

/-- The batched vertex rewrite of source lines 169-191: Python `zip`
truncates to the shorter of live vertices and cached coordinates, and
`bm.to_mesh` writes the remaining vertices back unmodified. -/
def newVertsOf (st : ObjState) (curve : CurveObj) (deform_axis : Axis)
    (anim_factor strength : ℝ) (res : ℕ) : List Vec3 :=
  List.zipWith
    (fun _ orig => deformVertex (sample_curve curve res).1
      (sample_curve curve res).2.2 (quatsOf curve res) (curveLenOf curve res)
      (axisIdx deform_axis) (axisSign deform_axis)
      (bboxMinOf st (axisIdx deform_axis))
      (startPosOf st curve res (axisIdx deform_axis) anim_factor)
      strength (cachedMatrixOf st) st.mesh.matrix_world orig)
    st.mesh.verts (origCoordsOf st) ++
  st.mesh.verts.drop (min st.mesh.verts.length (origCoordsOf st).length)

/-- `deform_object(obj, curve_obj, deform_axis, anim_factor, strength)`
(source lines 139-192): capture-on-first-use, bounding box of the cached
coordinates along the deform axis, early no-op return on an empty sample
set, then the batched vertex rewrite. -/
def deform_object (st : ObjState) (curve : CurveObj) (deform_axis : Axis)
    (anim_factor strength : ℝ) (res : ℕ) : ObjState :=
  let stc := cache_original_coords st
  match (sample_curve curve res).1 with
  | [] => stc
  | _ :: _ =>
      { stc with mesh :=
        { stc.mesh with verts := newVertsOf st curve deform_axis anim_factor strength res } }

/-- One recorded `deform_object` invocation: curve, axis, animation factor,
strength, resolution. -/
structure DeformCall where
  curve : CurveObj
  axis : Axis
  anim : ℝ
  strength : ℝ
  res : ℕ

/-- Run a sequence of deformations left to right. -/
def applyCalls (st : ObjState) : List DeformCall → ObjState
  | [] => st
  | c :: cs => applyCalls (deform_object st c.curve c.axis c.anim c.strength c.res) cs

/-- Orthonormality of one `(tangent, normal, binormal)` frame, with the
right-handedness required by the data-model section of the spec. -/
def IsOrthoFrame (f : Vec3 × Vec3 × Vec3) : Prop :=
  f.1.dot f.1 = 1 ∧ f.2.1.dot f.2.1 = 1 ∧ f.2.2.dot f.2.2 = 1 ∧
  f.1.dot f.2.1 = 0 ∧ f.1.dot f.2.2 = 0 ∧ f.2.1.dot f.2.2 = 0 ∧
  f.2.2 = f.1.cross f.2.1

/-!
Concrete fixtures used by counterexamples and witnesses: small polyline
curves (no continuous-evaluation primitive, so sampling takes the
piecewise-linear fallback) and small mesh states.
-/

/-- Polyline spline bending 90 degrees upward: (0,0,0) - (1,0,0) - (1,0,1). -/
def cornerSpline : Spline := ⟨none, [⟨0, 0, 0⟩, ⟨1, 0, 0⟩, ⟨1, 0, 1⟩], []⟩

def cornerCurve : CurveObj := ⟨affId, [cornerSpline]⟩

/-- Degenerate spline: two coincident control points, zero-length chord. -/
def degenSpline : Spline := ⟨none, [⟨0, 0, 0⟩, ⟨0, 0, 0⟩], []⟩

def degenCurve : CurveObj := ⟨affId, [degenSpline]⟩

/-- Straight spline from the origin to (4,0,0). -/
def lineSpline : Spline := ⟨none, [⟨0, 0, 0⟩, ⟨4, 0, 0⟩], []⟩

def lineCurve : CurveObj := ⟨affId, [lineSpline]⟩

/-- Second straight spline, disconnected from `lineSpline` by a gap. -/
def gapSpline : Spline := ⟨none, [⟨10, 0, 0⟩, ⟨10, 0, 3⟩], []⟩

def twoSplineCurve : CurveObj := ⟨affId, [lineSpline, gapSpline]⟩

/-- A two-vertex mesh whose cache holds only one rest coordinate: the live
topology changed after capture. -/
def mismatchState : ObjState :=
  ⟨⟨[⟨7, 7, 7⟩, ⟨0, 0, 5⟩], affId⟩, ⟨some [⟨9, 0, 0⟩], some affId⟩⟩

/-- The same two-vertex mesh with a matching two-entry rest-pose cache. -/
def matchedState : ObjState :=
  ⟨⟨[⟨7, 7, 7⟩, ⟨0, 0, 5⟩], affId⟩, ⟨some [⟨9, 0, 0⟩, ⟨0, 0, 9⟩], some affId⟩⟩

/-- One-vertex mesh with a captured rest pose, for the restore round-trip. -/
def capturedState : ObjState :=
  ⟨⟨[⟨1, 2, 3⟩], affId⟩, ⟨some [⟨1, 2, 3⟩], some affId⟩⟩

/-!
Basic vector lemmas.
-/

namespace Vec3

theorem dot_self_nonneg (v : Vec3) : 0 ≤ v.dot v := by
  unfold dot
  nlinarith [mul_self_nonneg v.x, mul_self_nonneg v.y, mul_self_nonneg v.z]

theorem dot_self_eq_zero_iff {v : Vec3} : v.dot v = 0 ↔ v = 0 := by
  constructor
  · intro h
    unfold dot at h
    refine vext ?_ ?_ ?_ <;> simp only [zero_x, zero_y, zero_z] <;>
      nlinarith [mul_self_nonneg v.x, mul_self_nonneg v.y, mul_self_nonneg v.z]
  · intro h; subst h; simp [dot]

theorem length_nonneg (v : Vec3) : 0 ≤ v.length := Real.sqrt_nonneg _

theorem length_eq_zero_iff {v : Vec3} : v.length = 0 ↔ v = 0 := by
  unfold length
  rw [Real.sqrt_eq_zero (dot_self_nonneg v)]
  exact dot_self_eq_zero_iff

theorem sub_eq_zero_iff {a b : Vec3} : a - b = 0 ↔ a = b := by
  constructor
  · intro h
    have hx := congrArg x h
    have hy := congrArg y h
    have hz := congrArg z h
    simp only [sub_x, sub_y, sub_z, zero_x, zero_y, zero_z] at hx hy hz
    refine vext ?_ ?_ ?_ <;> linarith
  · intro h
    subst h
    refine vext ?_ ?_ ?_ <;> simp only [sub_x, sub_y, sub_z, zero_x, zero_y, zero_z] <;> ring

theorem dist_eq_zero_iff {a b : Vec3} : (a - b).length = 0 ↔ a = b := by
  rw [length_eq_zero_iff, sub_eq_zero_iff]

@[simp] theorem lerp_zero (a b : Vec3) : a.lerp b 0 = a := by
  refine vext ?_ ?_ ?_ <;> simp [lerp]

@[simp] theorem lerp_one (a b : Vec3) : a.lerp b 1 = b := by
  refine vext ?_ ?_ ?_ <;> simp [lerp]

@[simp] theorem lerp_self (a : Vec3) (t : ℝ) : a.lerp a t = a := by
  refine vext ?_ ?_ ?_ <;> simp [lerp] <;> ring

@[simp] theorem add_zero' (v : Vec3) : v + 0 = v := by
  refine vext ?_ ?_ ?_ <;> simp

@[simp] theorem smul_zero' (r : ℝ) : r • (0 : Vec3) = 0 := by
  refine vext ?_ ?_ ?_ <;> simp

@[simp] theorem dot_zero_right (v : Vec3) : v.dot 0 = 0 := by
  simp [dot]

@[simp] theorem normalized_zero : (0 : Vec3).normalized = 0 := by
  unfold normalized
  simp [length_eq_zero_iff]

/-- Evaluation helper: a vector whose self-dot is a known positive square
normalizes to the scaling by the reciprocal root. -/
theorem normalized_of_sq {v : Vec3} {c : ℝ} (hc : 0 < c) (h : v.dot v = c ^ 2) :
    v.normalized = (1 / c) • v := by
  have hl : v.length = c := by
    unfold length
    rw [h, Real.sqrt_sq hc.le]
  unfold normalized
  rw [hl, if_neg (by linarith)]

end Vec3

@[simp] theorem Mat3.mulVec_zero (m : Mat3) : m.mulVec (0 : Vec3) = 0 := by
  refine Vec3.vext ?_ ?_ ?_ <;> simp [Mat3.mulVec]

@[simp] theorem idMat_mulVec (v : Vec3) : idMat.mulVec v = v := by
  refine Vec3.vext ?_ ?_ ?_ <;> simp [Mat3.mulVec, idMat, Vec3.dot]

@[simp] theorem Vec3.neg_zero' : -(0 : Vec3) = 0 := by
  refine Vec3.vext ?_ ?_ ?_ <;> simp

theorem Mat3.mext {m n : Mat3} (h0 : m.r0 = n.r0) (h1 : m.r1 = n.r1) (h2 : m.r2 = n.r2) :
    m = n := by
  cases m; cases n; simp_all

@[simp] theorem idMat_inv : idMat.inv = idMat := by
  unfold Mat3.inv Mat3.det idMat
  refine Mat3.mext ?_ ?_ ?_ <;>
    refine Vec3.vext ?_ ?_ ?_ <;> norm_num [Vec3.cross, Vec3.dot]

@[simp] theorem affId_apply (v : Vec3) : affId.apply v = v := by
  simp [Aff.apply, affId]

@[simp] theorem affId_inv : affId.inv = affId := by
  simp [Aff.inv, affId]

/-!
List facts used by the cache and table reasoning.
-/

theorem zipWith_map_getD (f : Vec3 → Vec3) :
    ∀ (v o : List Vec3) (j : ℕ), j < min v.length o.length →
      (List.zipWith (fun _ b => f b) v o).getD j 0 = f (o.getD j 0)
  | [], _, j, h => by simp at h
  | _ :: _, [], j, h => by simp at h
  | a :: v, b :: o, 0, _ => by simp
  | a :: v, b :: o, j + 1, h => by
      simp only [List.zipWith_cons_cons, List.getD_cons_succ]
      refine zipWith_map_getD f v o j ?_
      simp only [List.length_cons] at h
      omega

theorem zipWith_snd_eq (v o : List Vec3) (h : v.length = o.length) :
    List.zipWith (fun _ b => b) v o = o := by
  induction v generalizing o with
  | nil => cases o with
    | nil => rfl
    | cons b o => simp at h
  | cons a v ih =>
      cases o with
      | nil => simp at h
      | cons b o =>
          simp only [List.zipWith_cons_cons, List.cons.injEq, true_and]
          exact ih o (by simpa using h)

theorem getD_drop_add : ∀ (l : List Vec3) (m j : ℕ), (l.drop m).getD j 0 = l.getD (m + j) 0
  | _, 0, _ => by simp
  | [], m + 1, j => by simp
  | a :: l, m + 1, j => by
      rw [List.drop_succ_cons, getD_drop_add l m j, Nat.succ_add, List.getD_cons_succ]

theorem takeWhile_length_le (p : ℝ → Bool) :
    ∀ l : List ℝ, (l.takeWhile p).length ≤ l.length
  | [] => by simp
  | a :: l => by
      by_cases hp : p a
      · simpa [List.takeWhile_cons, hp] using takeWhile_length_le p l
      · simp [List.takeWhile_cons, hp]

theorem takeWhile_getD_true (p : ℝ → Bool) :
    ∀ (l : List ℝ) (j : ℕ), j < (l.takeWhile p).length → p (l.getD j 0) = true
  | [], j, h => by simp at h
  | a :: l, j, h => by
      by_cases hp : p a
      · cases j with
        | zero => simpa using hp
        | succ j =>
            rw [List.getD_cons_succ]
            refine takeWhile_getD_true p l j ?_
            rw [List.takeWhile_cons, if_pos hp] at h
            simpa using h
      · rw [List.takeWhile_cons, if_neg hp] at h
        simp at h

theorem takeWhile_stop (p : ℝ → Bool) :
    ∀ l : List ℝ, (l.takeWhile p).length < l.length →
      p (l.getD (l.takeWhile p).length 0) = false
  | [], h => by simp at h
  | a :: l, h => by
      by_cases hp : p a
      · rw [List.takeWhile_cons, if_pos hp] at h ⊢
        simp only [List.length_cons, List.getD_cons_succ]
        exact takeWhile_stop p l (by simpa using h)
      · rw [List.takeWhile_cons, if_neg hp]
        simpa using hp

theorem getLastD_eq_getD {α : Type} : ∀ (l : List α) (d : α), l ≠ [] →
    l.getLastD d = l.getD (l.length - 1) d
  | [], _, h => absurd rfl h
  | [a], _, _ => rfl
  | a :: b :: l, d, _ => by
      have ih := getLastD_eq_getD (b :: l) d (by simp)
      simpa [List.getLastD] using ih

theorem chain'_le_getD_succ :
    ∀ l : List ℝ, List.Chain' (· ≤ ·) l → ∀ i, i + 1 < l.length →
      l.getD i 0 ≤ l.getD (i + 1) 0
  | [], _, i, h => by simp at h
  | [a], _, i, h => by simp at h
  | a :: b :: l, hc, 0, _ => by
      simp only [List.getD_cons_zero, List.getD_cons_succ]
      exact (List.chain'_cons.mp hc).1
  | a :: b :: l, hc, i + 1, h => by
      simp only [List.getD_cons_succ]
      refine chain'_le_getD_succ (b :: l) (List.chain'_cons.mp hc).2 i ?_
      simpa using h

theorem chain'_le_getD_add (l : List ℝ) (hc : List.Chain' (· ≤ ·) l) :
    ∀ (i m : ℕ), i + m < l.length → l.getD i 0 ≤ l.getD (i + m) 0 := by
  intro i m
  induction m with
  | zero => intro _; simp
  | succ m ih =>
      intro h
      have h1 : i + m < l.length := by omega
      have h2 := chain'_le_getD_succ l hc (i + m) (by omega)
      have := ih h1
      calc l.getD i 0 ≤ l.getD (i + m) 0 := this
        _ ≤ l.getD (i + m + 1) 0 := h2
        _ = l.getD (i + (m + 1)) 0 := by ring_nf

/-!
Arc-length table facts.
-/

theorem arcAux_length : ∀ (l : List Vec3) (acc : ℝ) (prev : Vec3),
    (arcAux acc prev l).length = l.length
  | [], _, _ => rfl
  | p :: rest, acc, prev => by
      simp only [arcAux, List.length_cons, arcAux_length rest]

theorem arcLengths_length (pts : List Vec3) : (arcLengths pts).length = pts.length := by
  cases pts with
  | nil => rfl
  | cons p rest => simp [arcLengths, arcAux_length]

theorem arcLengths_getD_zero (pts : List Vec3) : (arcLengths pts).getD 0 0 = 0 := by
  cases pts with
  | nil => rfl
  | cons p rest => rfl

theorem arcAux_getD_succ :
    ∀ (l : List Vec3) (acc : ℝ) (prev : Vec3) (i : ℕ), i + 1 < l.length →
      (arcAux acc prev l).getD (i + 1) 0 =
        (arcAux acc prev l).getD i 0 + (l.getD (i + 1) 0 - l.getD i 0).length
  | [], _, _, i, h => by simp at h
  | p :: rest, acc, prev, 0, h => by
      cases rest with
      | nil => simp at h
      | cons q rest' =>
          simp only [arcAux, List.getD_cons_succ, List.getD_cons_zero]
  | p :: rest, acc, prev, i + 1, h => by
      simp only [arcAux, List.getD_cons_succ]
      exact arcAux_getD_succ rest (acc + (p - prev).length) p i (by simpa using h)

theorem arcLengths_getD_succ (pts : List Vec3) (i : ℕ) (h : i + 1 < pts.length) :
    (arcLengths pts).getD (i + 1) 0 =
      (arcLengths pts).getD i 0 + (pts.getD (i + 1) 0 - pts.getD i 0).length := by
  cases pts with
  | nil => simp at h
  | cons p rest =>
      cases i with
      | zero =>
          cases rest with
          | nil => simp at h
          | cons q rest' =>
              simp only [arcLengths, arcAux, List.getD_cons_succ, List.getD_cons_zero]
      | succ i =>
          simp only [arcLengths, List.getD_cons_succ]
          exact arcAux_getD_succ rest 0 p i (by simpa using h)

theorem arcAux_chain : ∀ (l : List Vec3) (acc : ℝ) (prev : Vec3),
    List.Chain' (· ≤ ·) (acc :: arcAux acc prev l)
  | [], _, _ => by simp [arcAux]
  | p :: rest, acc, prev => by
      simp only [arcAux]
      refine List.chain'_cons.mpr ⟨?_, arcAux_chain rest (acc + (p - prev).length) p⟩
      have := Vec3.length_nonneg (p - prev)
      linarith

theorem arcLengths_chain (pts : List Vec3) : List.Chain' (· ≤ ·) (arcLengths pts) := by
  cases pts with
  | nil => simp [arcLengths]
  | cons p rest =>
      simp only [arcLengths]
      exact arcAux_chain rest 0 p

/-- If the cumulative table does not grow from index `i` to index `i + m`,
the sampled points at those indices coincide (all increments in between are
nonnegative, hence zero, hence zero distances). -/
theorem points_eq_of_arc_flat (pts : List Vec3) (i : ℕ) :
    ∀ m : ℕ, i + m < pts.length →
      (arcLengths pts).getD (i + m) 0 ≤ (arcLengths pts).getD i 0 →
      pts.getD (i + m) 0 = pts.getD i 0 := by
  intro m
  induction m with
  | zero => intro _ _; rfl
  | succ m ih =>
      intro h hle
      have hlen : (arcLengths pts).length = pts.length := arcLengths_length pts
      have h1 : i + m < pts.length := by omega
      have mono1 : (arcLengths pts).getD i 0 ≤ (arcLengths pts).getD (i + m) 0 :=
        chain'_le_getD_add _ (arcLengths_chain pts) i m (by omega)
      have rec1 := arcLengths_getD_succ pts (i + m) (by omega)
      have dnn : 0 ≤ (pts.getD (i + m + 1) 0 - pts.getD (i + m) 0).length :=
        Vec3.length_nonneg _
      have hle1 : (arcLengths pts).getD (i + m + 1) 0 ≤ (arcLengths pts).getD i 0 := by
        have : i + (m + 1) = i + m + 1 := by omega
        rw [this] at hle
        exact hle
      have hd0 : (pts.getD (i + m + 1) 0 - pts.getD (i + m) 0).length = 0 := by
        linarith [rec1, mono1, hle1]
      have heq : pts.getD (i + m + 1) 0 = pts.getD (i + m) 0 :=
        Vec3.dist_eq_zero_iff.mp hd0
      have hle' : (arcLengths pts).getD (i + m) 0 ≤ (arcLengths pts).getD i 0 := by
        linarith
      have : i + (m + 1) = i + m + 1 := by omega
      rw [this, heq]
      exact ih h1 hle'

/-!
Projections of `sample_curve`.
-/

theorem sample_curve_fst (c : CurveObj) (res : ℕ) :
    (sample_curve c res).1 = sampledPoints c res := by
  unfold sample_curve
  cases h : curveSamplesRaw c res with
  | nil => simp [sampledPoints, h]
  | cons a l => simp

theorem sample_curve_lengths (c : CurveObj) (res : ℕ) :
    (sample_curve c res).2.2 = arcLengths (sampledPoints c res) := by
  unfold sample_curve
  cases h : curveSamplesRaw c res with
  | nil => simp [sampledPoints, arcLengths, h]
  | cons a l => simp

/-!
Interpolation at the clamped boundaries.
-/

theorem headD_eq_getD {α : Type} (l : List α) (d : α) (h : l ≠ []) :
    l.headD d = l.getD 0 d := by
  cases l with
  | nil => exact absurd rfl h
  | cons a l => rfl

theorem getD_le_last (l : List ℝ) (hc : List.Chain' (· ≤ ·) l) (j : ℕ)
    (hj : j < l.length) : l.getD j 0 ≤ l.getD (l.length - 1) 0 := by
  have h := chain'_le_getD_add l hc j (l.length - 1 - j) (by omega)
  rwa [show j + (l.length - 1 - j) = l.length - 1 by omega] at h

theorem arc_last_nonneg (pts : List Vec3) (h : pts ≠ []) :
    0 ≤ (arcLengths pts).getD ((arcLengths pts).length - 1) 0 := by
  have h0 := arcLengths_getD_zero pts
  have := getD_le_last (arcLengths pts) (arcLengths_chain pts) 0
    (by rw [arcLengths_length]; exact List.length_pos.mpr h)
  rw [h0] at this
  exact this

/-- Saturation on the high side: a pre-clamp position at or above the curve
length lands exactly on the last sample point. -/
theorem interpPoint_last (pts : List Vec3) (hne : pts ≠ []) (sPre : ℝ)
    (hs : (arcLengths pts).getLastD 0 ≤ sPre) :
    interpPoint pts (arcLengths pts) (clampS ((arcLengths pts).getLastD 0) sPre)
      = pts.getLastD 0 := by
  have hlen : (arcLengths pts).length = pts.length := arcLengths_length pts
  have hnpos : 0 < pts.length := List.length_pos.mpr hne
  have hlne : arcLengths pts ≠ [] := by
    intro hemp
    rw [hemp] at hlen
    simp only [List.length_nil] at hlen
    omega
  have hLlast : (arcLengths pts).getLastD 0
      = (arcLengths pts).getD ((arcLengths pts).length - 1) 0 :=
    getLastD_eq_getD _ 0 hlne
  have hL0 : 0 ≤ (arcLengths pts).getLastD 0 := by
    rw [hLlast]
    exact arc_last_nonneg pts hne
  have hclamp : clampS ((arcLengths pts).getLastD 0) sPre
      = (arcLengths pts).getLastD 0 := by
    unfold clampS
    rw [min_eq_left hs, max_eq_right hL0]
  have hptslast : pts.getLastD 0 = pts.getD (pts.length - 1) 0 :=
    getLastD_eq_getD pts 0 hne
  rw [hclamp, hLlast, hptslast]
  set l := arcLengths pts with hldef
  set L := l.getD (l.length - 1) 0 with hLdef
  have htw_le := takeWhile_length_le (fun x => decide (x < L)) l
  have htw_lt : (l.takeWhile fun x => decide (x < L)).length < l.length := by
    rcases Nat.lt_or_ge (l.takeWhile fun x => decide (x < L)).length l.length with h | h
    · exact h
    · exfalso
      have heq : (l.takeWhile fun x => decide (x < L)).length = l.length :=
        le_antisymm htw_le h
      have hmem := takeWhile_getD_true (fun x => decide (x < L)) l (l.length - 1)
        (by rw [heq]; omega)
      exact lt_irrefl L (of_decide_eq_true hmem)
  have hi1 : locateI1 l L = (l.takeWhile fun x => decide (x < L)).length := by
    unfold locateI1
    rw [if_neg (by omega)]
  have hge : L ≤ l.getD (locateI1 l L) 0 := by
    rw [hi1]
    have hstop := takeWhile_stop (fun x => decide (x < L)) l htw_lt
    exact not_lt.mp (decide_eq_false_iff_not.mp hstop)
  have hle' : l.getD (locateI1 l L) 0 ≤ L := by
    rw [hi1]
    exact getD_le_last l (arcLengths_chain pts) _ htw_lt
  have hEq : l.getD (locateI1 l L) 0 = L := le_antisymm hle' hge
  have hloclt : locateI1 l L < l.length := by
    rw [hi1]
    exact htw_lt
  cases hcase : locateI1 l L with
  | zero =>
      have hzero : l.getD 0 0 = 0 := arcLengths_getD_zero pts
      have hLz : L = 0 := by
        rw [hcase] at hEq
        rw [hEq] at hzero
        exact hzero
      have hflat := points_eq_of_arc_flat pts 0 (pts.length - 1) (by omega) (by
        rw [Nat.zero_add]
        have h1 : l.getD (pts.length - 1) 0 = L := by
          rw [hLdef, hlen]
        rw [h1, hLz, hzero])
      rw [Nat.zero_add] at hflat
      simp only [interpPoint, segFrac]
      rw [hcase]
      simp only [Nat.zero_sub, sub_self, if_true, eq_self_iff_true, Vec3.lerp_zero]
      exact hflat.symm
  | succ j =>
      have hjlt : l.getD j 0 < L := by
        have := takeWhile_getD_true (fun x => decide (x < L)) l j
          (by rw [← hi1, hcase]; omega)
        exact of_decide_eq_true this
      have hlj1 : l.getD (j + 1) 0 = L := by
        rw [hcase] at hEq
        exact hEq
      have hseg : l.getD (j + 1) 0 - l.getD j 0 ≠ 0 := by
        rw [hlj1]
        intro h
        have : l.getD j 0 = L := by linarith
        rw [this] at hjlt
        exact lt_irrefl _ hjlt
      have hflat := points_eq_of_arc_flat pts (j + 1) (pts.length - 1 - (j + 1))
        (by rw [hcase, hlen] at hloclt; omega) (by
          rw [show j + 1 + (pts.length - 1 - (j + 1)) = pts.length - 1 by
            rw [hcase, hlen] at hloclt; omega]
          have h1 : l.getD (pts.length - 1) 0 = L := by
            rw [hLdef, hlen]
          rw [h1, hlj1])
      rw [show j + 1 + (pts.length - 1 - (j + 1)) = pts.length - 1 by
        rw [hcase, hlen] at hloclt; omega] at hflat
      simp only [interpPoint, segFrac]
      rw [hcase]
      simp only [Nat.add_sub_cancel]
      rw [if_neg hseg, hlj1, div_self (by rw [hlj1] at hseg; exact hseg)]
      rw [Vec3.lerp_one]
      exact hflat.symm

/-- Saturation on the low side: a nonpositive pre-clamp position lands
exactly on the first sample point. -/
theorem interpPoint_first (pts : List Vec3) (hne : pts ≠ []) (sPre : ℝ)
    (hs : sPre ≤ 0) :
    interpPoint pts (arcLengths pts) (clampS ((arcLengths pts).getLastD 0) sPre)
      = pts.headD 0 := by
  have hclamp : clampS ((arcLengths pts).getLastD 0) sPre = 0 := by
    unfold clampS
    have h1 : min ((arcLengths pts).getLastD 0) sPre ≤ 0 :=
      le_trans (min_le_right _ _) hs
    exact max_eq_left h1
  rw [hclamp]
  cases pts with
  | nil => exact absurd rfl hne
  | cons p rest =>
      have harc : arcLengths (p :: rest) = 0 :: arcAux 0 p rest := rfl
      have htw : ((0 :: arcAux 0 p rest).takeWhile fun x => decide (x < (0 : ℝ))) = [] := by
        rw [List.takeWhile_cons]
        norm_num
      have hi1 : locateI1 (0 :: arcAux 0 p rest) 0 = 0 := by
        unfold locateI1
        rw [htw]
        simp
      simp only [interpPoint, segFrac, harc, hi1]
      simp

/-!
Structural facts about the cache and `deform_object`.
-/

theorem cache_mesh_eq (st : ObjState) : (cache_original_coords st).mesh = st.mesh := by
  unfold cache_original_coords
  cases st.cache.orig_coords <;> rfl

theorem cache_of_some {st : ObjState} {l : List Vec3}
    (h : st.cache.orig_coords = some l) : cache_original_coords st = st := by
  unfold cache_original_coords
  rw [h]

theorem cache_orig_some (st : ObjState) :
    ∃ l, (cache_original_coords st).cache.orig_coords = some l := by
  unfold cache_original_coords
  cases h : st.cache.orig_coords with
  | none => exact ⟨st.mesh.verts, rfl⟩
  | some l => exact ⟨l, h⟩

theorem deform_cache (st : ObjState) (curve : CurveObj) (ax : Axis)
    (anim strength : ℝ) (res : ℕ) :
    (deform_object st curve ax anim strength res).cache
      = (cache_original_coords st).cache := by
  unfold deform_object
  cases (sample_curve curve res).1 <;> rfl

theorem deform_matrix (st : ObjState) (curve : CurveObj) (ax : Axis)
    (anim strength : ℝ) (res : ℕ) :
    (deform_object st curve ax anim strength res).mesh.matrix_world
      = st.mesh.matrix_world := by
  unfold deform_object
  cases (sample_curve curve res).1 <;> simp [cache_mesh_eq]

theorem deform_verts_of_empty (st : ObjState) (curve : CurveObj) (ax : Axis)
    (anim strength : ℝ) (res : ℕ) (h : (sample_curve curve res).1 = []) :
    (deform_object st curve ax anim strength res).mesh.verts
      = st.mesh.verts := by
  unfold deform_object
  rw [h, cache_mesh_eq]

theorem deform_verts_of_nonempty (st : ObjState) (curve : CurveObj) (ax : Axis)
    (anim strength : ℝ) (res : ℕ) (h : (sample_curve curve res).1 ≠ []) :
    (deform_object st curve ax anim strength res).mesh.verts
      = newVertsOf st curve ax anim strength res := by
  unfold deform_object
  cases hp : (sample_curve curve res).1 with
  | nil => exact absurd hp h
  | cons a l => rfl

theorem newVertsOf_length (st : ObjState) (curve : CurveObj) (ax : Axis)
    (anim strength : ℝ) (res : ℕ) :
    (newVertsOf st curve ax anim strength res).length = st.mesh.verts.length := by
  unfold newVertsOf
  rw [List.length_append, List.length_zipWith, List.length_drop]
  omega

theorem deform_verts_length (st : ObjState) (curve : CurveObj) (ax : Axis)
    (anim strength : ℝ) (res : ℕ) :
    (deform_object st curve ax anim strength res).mesh.verts.length
      = st.mesh.verts.length := by
  cases hp : (sample_curve curve res).1 with
  | nil => rw [deform_verts_of_empty st curve ax anim strength res hp]
  | cons a l =>
      rw [deform_verts_of_nonempty st curve ax anim strength res (by rw [hp]; simp)]
      exact newVertsOf_length st curve ax anim strength res

theorem getD_append_lt {α : Type} (d : α) :
    ∀ (l t : List α) (j : ℕ), j < l.length → (l ++ t).getD j d = l.getD j d
  | [], _, j, h => by simp at h
  | a :: l, t, 0, _ => rfl
  | a :: l, t, j + 1, h => by
      simp only [List.cons_append, List.getD_cons_succ]
      exact getD_append_lt d l t j (by simpa using h)

theorem getD_append_ge {α : Type} (d : α) :
    ∀ (l t : List α) (j : ℕ), l.length ≤ j → (l ++ t).getD j d = t.getD (j - l.length) d
  | [], _, j, _ => by simp
  | a :: l, t, 0, h => by simp at h
  | a :: l, t, j + 1, h => by
      simp only [List.cons_append, List.getD_cons_succ, List.length_cons]
      rw [getD_append_ge d l t j (by simpa using h)]
      congr 1
      omega

/-- The vertex written at index `j` when `j` falls inside the zipped prefix. -/
theorem newVertsOf_getD_lt (st : ObjState) (curve : CurveObj) (ax : Axis)
    (anim strength : ℝ) (res : ℕ) (j : ℕ)
    (hj : j < min st.mesh.verts.length (origCoordsOf st).length) :
    (newVertsOf st curve ax anim strength res).getD j 0 =
      deformVertex (sample_curve curve res).1 (sample_curve curve res).2.2
        (quatsOf curve res) (curveLenOf curve res)
        (axisIdx ax) (axisSign ax) (bboxMinOf st (axisIdx ax))
        (startPosOf st curve res (axisIdx ax) anim) strength
        (cachedMatrixOf st) st.mesh.matrix_world ((origCoordsOf st).getD j 0) := by
  unfold newVertsOf
  rw [getD_append_lt 0 _ _ j (by rw [List.length_zipWith]; exact hj)]
  exact zipWith_map_getD _ st.mesh.verts (origCoordsOf st) j hj

/-- The vertex at index `j` keeps its live value when `j` falls beyond the
zipped prefix (cache shorter than the live mesh). -/
theorem newVertsOf_getD_ge (st : ObjState) (curve : CurveObj) (ax : Axis)
    (anim strength : ℝ) (res : ℕ) (j : ℕ)
    (hj : min st.mesh.verts.length (origCoordsOf st).length ≤ j) :
    (newVertsOf st curve ax anim strength res).getD j 0 =
      st.mesh.verts.getD j 0 := by
  unfold newVertsOf
  rw [getD_append_ge 0 _ _ j (by rw [List.length_zipWith]; exact hj)]
  rw [List.length_zipWith, getD_drop_add]
  congr 1
  omega

theorem list_ext_getD {α : Type} (d : α) :
    ∀ (l₁ l₂ : List α), l₁.length = l₂.length →
      (∀ j, j < l₁.length → l₁.getD j d = l₂.getD j d) → l₁ = l₂
  | [], [], _, _ => rfl
  | [], b :: l₂, h, _ => by simp at h
  | a :: l₁, [], h, _ => by simp at h
  | a :: l₁, b :: l₂, h, hj => by
      have h0 := hj 0 (by simp)
      simp only [List.getD_cons_zero] at h0
      rw [h0]
      have htl : l₁ = l₂ := by
        refine list_ext_getD d l₁ l₂ (by simpa using h) ?_
        intro j hjl
        have := hj (j + 1) (by simp only [List.length_cons]; omega)
        simpa using this
      rw [htl]

/-!
Cache stability under repeated deformation.
-/

theorem cache_of_deform (st : ObjState) (curve : CurveObj) (ax : Axis)
    (anim strength : ℝ) (res : ℕ) :
    cache_original_coords (deform_object st curve ax anim strength res)
      = deform_object st curve ax anim strength res := by
  obtain ⟨l, hl⟩ := cache_orig_some st
  have h : (deform_object st curve ax anim strength res).cache.orig_coords = some l := by
    rw [deform_cache]
    exact hl
  exact cache_of_some h

theorem origCoordsOf_deform (st : ObjState) (curve : CurveObj) (ax : Axis)
    (anim strength : ℝ) (res : ℕ) :
    origCoordsOf (deform_object st curve ax anim strength res) = origCoordsOf st := by
  unfold origCoordsOf
  rw [cache_of_deform, deform_cache]

theorem cachedMatrixOf_deform (st : ObjState) (curve : CurveObj) (ax : Axis)
    (anim strength : ℝ) (res : ℕ) :
    cachedMatrixOf (deform_object st curve ax anim strength res) = cachedMatrixOf st := by
  unfold cachedMatrixOf
  rw [cache_of_deform, deform_cache, deform_matrix]

theorem bboxMinOf_deform (st : ObjState) (curve : CurveObj) (ax : Axis)
    (anim strength : ℝ) (res : ℕ) (k : ℕ) :
    bboxMinOf (deform_object st curve ax anim strength res) k = bboxMinOf st k := by
  unfold bboxMinOf
  rw [origCoordsOf_deform]

theorem startPosOf_deform (st : ObjState) (curve : CurveObj) (ax : Axis)
    (anim strength : ℝ) (res : ℕ) (curve' : CurveObj) (res' k : ℕ) (anim' : ℝ) :
    startPosOf (deform_object st curve ax anim strength res) curve' res' k anim'
      = startPosOf st curve' res' k anim' := by
  unfold startPosOf bboxLenOf bboxMaxOf bboxMinOf
  rw [origCoordsOf_deform]

theorem newVertsOf_deform (st : ObjState) (curve : CurveObj) (ax : Axis)
    (anim strength : ℝ) (res : ℕ) :
    newVertsOf (deform_object st curve ax anim strength res) curve ax anim strength res
      = newVertsOf st curve ax anim strength res := by
  refine list_ext_getD 0 _ _ ?_ ?_
  · rw [newVertsOf_length, newVertsOf_length, deform_verts_length]
  · intro j hj
    rw [newVertsOf_length, deform_verts_length] at hj
    rcases Nat.lt_or_ge j (min st.mesh.verts.length (origCoordsOf st).length) with hlt | hge
    · have hlt1 : j < min (deform_object st curve ax anim strength res).mesh.verts.length
          (origCoordsOf (deform_object st curve ax anim strength res)).length := by
        rw [deform_verts_length, origCoordsOf_deform]
        exact hlt
      rw [newVertsOf_getD_lt _ curve ax anim strength res j hlt1,
        newVertsOf_getD_lt st curve ax anim strength res j hlt]
      rw [origCoordsOf_deform, cachedMatrixOf_deform, deform_matrix, bboxMinOf_deform,
        startPosOf_deform]
    · have hge1 : min (deform_object st curve ax anim strength res).mesh.verts.length
          (origCoordsOf (deform_object st curve ax anim strength res)).length ≤ j := by
        rw [deform_verts_length, origCoordsOf_deform]
        exact hge
      rw [newVertsOf_getD_ge _ curve ax anim strength res j hge1,
        newVertsOf_getD_ge st curve ax anim strength res j hge]
      cases hp : (sample_curve curve res).1 with
      | nil => rw [deform_verts_of_empty st curve ax anim strength res hp]
      | cons a l =>
          rw [deform_verts_of_nonempty st curve ax anim strength res (by rw [hp]; simp)]
          exact newVertsOf_getD_ge st curve ax anim strength res j hge

/-!
Restore and the deform-call invariant.
-/

theorem writeZip_eq (verts L : List Vec3) (h : L.length = verts.length) :
    writeZip verts L = L := by
  unfold writeZip
  rw [zipWith_snd_eq verts L h.symm]
  have hm : min verts.length L.length = verts.length := by omega
  rw [hm, List.drop_length, List.append_nil]

theorem restore_verts {st : ObjState} {L : List Vec3}
    (h : st.cache.orig_coords = some L) (hlen : L.length = st.mesh.verts.length) :
    (restore_original_coords st).mesh.verts = L := by
  unfold restore_original_coords
  rw [h]
  exact writeZip_eq st.mesh.verts L hlen

theorem applyCalls_inv : ∀ (calls : List DeformCall) (st : ObjState) {L : List Vec3},
    st.cache.orig_coords = some L → L.length = st.mesh.verts.length →
    (applyCalls st calls).cache.orig_coords = some L ∧
      L.length = (applyCalls st calls).mesh.verts.length
  | [], _, _, h1, h2 => ⟨h1, h2⟩
  | c :: cs, st, L, h1, h2 => by
      have g1 : (deform_object st c.curve c.axis c.anim c.strength c.res).cache.orig_coords
          = some L := by
        rw [deform_cache, cache_of_some h1]
        exact h1
      have g2 : L.length
          = (deform_object st c.curve c.axis c.anim c.strength c.res).mesh.verts.length := by
        rw [deform_verts_length]
        exact h2
      exact applyCalls_inv cs _ g1 g2

/-!
Concrete evaluations of the fixtures.
-/

theorem range_two : List.range 2 = [0, 1] := by decide

theorem range_three : List.range 3 = [0, 1, 2] := by decide

theorem lineSpline_samples : sampleSplineRaw affId lineSpline 1 =
    [(⟨0, 0, 0⟩, ⟨4, 0, 0⟩), (⟨4, 0, 0⟩, ⟨4, 0, 0⟩)] := by
  unfold sampleSplineRaw lineSpline
  rw [if_neg (by norm_num)]
  rw [range_two]
  simp only [List.map_cons, List.map_nil]
  unfold splineSampleAt splineCoords pyGet
  norm_num [Aff.apply, Mat3.mulVec, Vec3.dot, affId, idMat, Vec3.lerp]

theorem degenSpline_samples : sampleSplineRaw affId degenSpline 1 =
    [(⟨0, 0, 0⟩, ⟨0, 0, 0⟩), (⟨0, 0, 0⟩, ⟨0, 0, 0⟩)] := by
  unfold sampleSplineRaw degenSpline
  rw [if_neg (by norm_num)]
  rw [range_two]
  simp only [List.map_cons, List.map_nil]
  unfold splineSampleAt splineCoords pyGet
  norm_num [Aff.apply, Mat3.mulVec, Vec3.dot, affId, idMat, Vec3.lerp]

theorem cornerSpline_samples : sampleSplineRaw affId cornerSpline 2 =
    [(⟨0, 0, 0⟩, ⟨1, 0, 0⟩), (⟨1, 0, 0⟩, ⟨0, 0, 1⟩), (⟨1, 0, 1⟩, ⟨0, 0, 1⟩)] := by
  unfold sampleSplineRaw cornerSpline
  rw [if_neg (by norm_num)]
  rw [range_three]
  simp only [List.map_cons, List.map_nil]
  unfold splineSampleAt splineCoords pyGet
  norm_num [Aff.apply, Mat3.mulVec, Vec3.dot, affId, idMat, Vec3.lerp,
    Int.toNat_ofNat, List.getD_cons_succ, List.getD_cons_zero]
  norm_num [show Int.toNat 2 = 2 from rfl, List.getD_cons_succ, List.getD_cons_zero]

theorem lineCurve_raw : curveSamplesRaw lineCurve 1 =
    [(⟨0, 0, 0⟩, ⟨4, 0, 0⟩), (⟨4, 0, 0⟩, ⟨4, 0, 0⟩)] := by
  unfold curveSamplesRaw lineCurve splinesSamples
  rw [lineSpline_samples]
  rfl

theorem degenCurve_raw : curveSamplesRaw degenCurve 1 =
    [(⟨0, 0, 0⟩, ⟨0, 0, 0⟩), (⟨0, 0, 0⟩, ⟨0, 0, 0⟩)] := by
  unfold curveSamplesRaw degenCurve splinesSamples
  rw [degenSpline_samples]
  rfl

theorem cornerCurve_raw : curveSamplesRaw cornerCurve 2 =
    [(⟨0, 0, 0⟩, ⟨1, 0, 0⟩), (⟨1, 0, 0⟩, ⟨0, 0, 1⟩), (⟨1, 0, 1⟩, ⟨0, 0, 1⟩)] := by
  unfold curveSamplesRaw cornerCurve splinesSamples
  rw [cornerSpline_samples]
  rfl

theorem lineCurve_points : sampledPoints lineCurve 1 = [⟨0, 0, 0⟩, ⟨4, 0, 0⟩] := by
  unfold sampledPoints
  rw [lineCurve_raw]
  rfl

theorem lineCurve_points_ne : (sample_curve lineCurve 1).1 ≠ [] := by
  rw [sample_curve_fst, lineCurve_points]
  simp

theorem sqrt_sixteen : Real.sqrt 16 = 4 := by
  rw [show (16 : ℝ) = 4 ^ 2 by norm_num, Real.sqrt_sq (by norm_num)]

theorem lineCurve_lengths : (sample_curve lineCurve 1).2.2 = [0, 4] := by
  rw [sample_curve_lengths, lineCurve_points]
  unfold arcLengths arcAux
  norm_num [Vec3.length, Vec3.dot, sqrt_sixteen]
  rfl

theorem degenCurve_points_ne : (sample_curve degenCurve 1).1 ≠ [] := by
  rw [sample_curve_fst]
  unfold sampledPoints
  rw [degenCurve_raw]
  simp

theorem degenCurve_tangents : sampledTangents degenCurve 1 = [0, 0] := by
  unfold sampledTangents
  rw [degenCurve_raw]
  have h0 : (⟨0, 0, 0⟩ : Vec3) = 0 := rfl
  simp [h0, Vec3.normalized_zero]

theorem normalized_unit {v : Vec3} (h : v.dot v = 1) : v.normalized = v := by
  have h1 := Vec3.normalized_of_sq (show (0 : ℝ) < 1 by norm_num)
    (by rw [h]; norm_num)
  rw [h1]
  refine Vec3.vext ?_ ?_ ?_ <;> simp

theorem cornerCurve_tangents :
    sampledTangents cornerCurve 2 = [⟨1, 0, 0⟩, ⟨0, 0, 1⟩, ⟨0, 0, 1⟩] := by
  unfold sampledTangents
  rw [cornerCurve_raw]
  simp only [List.map_cons, List.map_nil]
  rw [normalized_unit (by norm_num [Vec3.dot]), normalized_unit (by norm_num [Vec3.dot])]

theorem sample_curve_frames (c : CurveObj) (res : ℕ) (h : curveSamplesRaw c res ≠ []) :
    (sample_curve c res).2.1 = buildFrames
      ((upVec - upVec.dot ((sampledTangents c res).headD 0)
        • (sampledTangents c res).headD 0).normalized)
      ((sampledTangents c res).headD 0) (sampledTangents c res) := by
  unfold sample_curve
  cases hr : curveSamplesRaw c res with
  | nil => exact absurd hr h
  | cons a l => simp

theorem buildFrames_cons (n p t : Vec3) (ts : List Vec3) :
    buildFrames n p (t :: ts) =
      (t.normalized, n.normalized, (t.cross n).normalized) ::
        buildFrames
          (if (p.cross t).length > 1e-6 then
            (rotVec (vangle p t) (p.cross t).normalized n).normalized
          else n) t ts := rfl

theorem Vec3.cross_self (v : Vec3) : v.cross v = 0 := by
  refine Vec3.vext ?_ ?_ ?_ <;> simp [Vec3.cross] <;> ring

theorem Vec3.length_zero : (0 : Vec3).length = 0 := by
  simp [Vec3.length, Vec3.dot, Real.sqrt_zero]

/-- The second frame of the corner curve, as emitted by the source: the
tangent has already turned to `(0,0,1)` but the running normal is still the
one aligned with the first tangent, so tangent and normal coincide and the
binormal collapses to zero. -/
theorem corner_frame1 :
    (sample_curve cornerCurve 2).2.1.getD 1 (0, 0, 0)
      = (⟨0, 0, 1⟩, ⟨0, 0, 1⟩, (0 : Vec3)) := by
  rw [sample_curve_frames cornerCurve 2 (by rw [cornerCurve_raw]; simp)]
  rw [cornerCurve_tangents]
  simp only [List.headD_cons]
  have hdot : upVec.dot ⟨1, 0, 0⟩ = 0 := by norm_num [upVec, Vec3.dot]
  rw [hdot]
  have hv : upVec - (0 : ℝ) • (⟨1, 0, 0⟩ : Vec3) = ⟨0, 0, 1⟩ := by
    refine Vec3.vext ?_ ?_ ?_ <;> norm_num [upVec]
  rw [hv, normalized_unit (by norm_num [Vec3.dot])]
  rw [buildFrames_cons]
  rw [if_neg (by rw [Vec3.cross_self, Vec3.length_zero]; norm_num)]
  rw [buildFrames_cons]
  rw [List.getD_cons_succ, List.getD_cons_zero]
  rw [Vec3.cross_self, Vec3.normalized_zero]
  rw [normalized_unit (by norm_num [Vec3.dot])]

@[simp] theorem Vec3.zero_smul' (v : Vec3) : (0 : ℝ) • v = 0 := by
  refine Vec3.vext ?_ ?_ ?_ <;> simp

theorem interp_line_at_zero :
    interpPoint [(⟨0, 0, 0⟩ : Vec3), ⟨4, 0, 0⟩] [0, 4] 0 = ⟨0, 0, 0⟩ := by
  unfold interpPoint segFrac locateI1
  norm_num [List.takeWhile]

theorem mismatch_vertex0 :
    deformVertex (sample_curve lineCurve 1).1 (sample_curve lineCurve 1).2.2
      (quatsOf lineCurve 1) (curveLenOf lineCurve 1) (axisIdx .X) (axisSign .X)
      (bboxMinOf mismatchState (axisIdx .X))
      (startPosOf mismatchState lineCurve 1 (axisIdx .X) 0) 0
      (cachedMatrixOf mismatchState) mismatchState.mesh.matrix_world ⟨9, 0, 0⟩
      = ⟨0, 0, 0⟩ := by
  have hbmin : bboxMinOf mismatchState (axisIdx .X) = 9 := rfl
  have hstart : startPosOf mismatchState lineCurve 1 (axisIdx .X) 0 = 0 := zero_mul _
  have hclen : curveLenOf lineCurve 1 = 4 := by
    unfold curveLenOf
    rw [lineCurve_lengths]
    rfl
  have hget : (⟨9, 0, 0⟩ : Vec3).get (axisIdx .X) = 9 := rfl
  have hs : clampS 4 (0 + (9 - 9)) = 0 := by norm_num [clampS]
  unfold deformVertex
  simp only [Vec3.zero_smul', Vec3.add_zero', hbmin, hstart, hclen, hget]
  rw [hs]
  rw [sample_curve_fst, lineCurve_points, lineCurve_lengths, interp_line_at_zero]
  have hmw : mismatchState.mesh.matrix_world = affId := rfl
  rw [hmw, affId_inv]
  have h000 : (⟨0, 0, 0⟩ : Vec3) = 0 := rfl
  rw [h000, affId_apply]

theorem mismatch_deform_verts :
    (deform_object mismatchState lineCurve .X 0 0 1).mesh.verts
      = [⟨0, 0, 0⟩, ⟨0, 0, 5⟩] := by
  rw [deform_verts_of_nonempty mismatchState lineCurve .X 0 0 1 lineCurve_points_ne]
  unfold newVertsOf
  have horig : origCoordsOf mismatchState = [⟨9, 0, 0⟩] := rfl
  have hverts : mismatchState.mesh.verts = [⟨7, 7, 7⟩, ⟨0, 0, 5⟩] := rfl
  rw [horig, hverts]
  simp only [List.zipWith_cons_cons, List.zipWith_nil_right, List.length_cons,
    List.length_nil, List.length_singleton]
  norm_num [List.drop_succ_cons, List.drop_zero]
  exact mismatch_vertex0

/-!
Helpers for sample counting and map indexing.
-/

theorem getD_map {α β : Type} (f : α → β) :
    ∀ (l : List α) (i : ℕ) (da : α) (db : β), i < l.length →
      (l.map f).getD i db = f (l.getD i da)
  | [], i, _, _, h => by simp at h
  | a :: l, 0, _, _, _ => rfl
  | a :: l, i + 1, da, db, h => by
      simp only [List.map_cons, List.getD_cons_succ]
      exact getD_map f l i da db (by simpa using h)

theorem sampleSplineRaw_length (M : Aff) (sp : Spline) (res : ℕ)
    (h : splineUsable sp) : (sampleSplineRaw M sp res).length = res + 1 := by
  unfold sampleSplineRaw
  rw [if_neg (by unfold splineUsable at h; omega)]
  rw [List.length_map, List.length_range]

theorem sampleSplineRaw_ne (M : Aff) (sp : Spline) (res : ℕ)
    (h : splineUsable sp) : sampleSplineRaw M sp res ≠ [] := by
  intro hemp
  have := sampleSplineRaw_length M sp res h
  rw [hemp] at this
  simp at this

theorem splinesSamples_ne (M : Aff) (res : ℕ) :
    ∀ (sps : List Spline) (sp : Spline), sp ∈ sps → splineUsable sp →
      splinesSamples M res sps ≠ []
  | [], sp, hmem, _ => by simp at hmem
  | s0 :: rest, sp, hmem, husable => by
      unfold splinesSamples
      intro hemp
      rw [List.append_eq_nil] at hemp
      rcases List.mem_cons.mp hmem with heq | htail
      · exact sampleSplineRaw_ne M s0 res (heq ▸ husable) hemp.1
      · exact splinesSamples_ne M res rest sp htail husable hemp.2

theorem deform_verts_getD (st : ObjState) (curve : CurveObj) (ax : Axis)
    (anim strength : ℝ) (res : ℕ) (j : ℕ)
    (hp : (sample_curve curve res).1 ≠ [])
    (hj : j < min st.mesh.verts.length (origCoordsOf st).length) :
    (deform_object st curve ax anim strength res).mesh.verts.getD j 0 =
      deformVertex (sample_curve curve res).1 (sample_curve curve res).2.2
        (quatsOf curve res) (curveLenOf curve res)
        (axisIdx ax) (axisSign ax) (bboxMinOf st (axisIdx ax))
        (startPosOf st curve res (axisIdx ax) anim) strength
        (cachedMatrixOf st) st.mesh.matrix_world ((origCoordsOf st).getD j 0) := by
  rw [deform_verts_of_nonempty st curve ax anim strength res hp]
  exact newVertsOf_getD_lt st curve ax anim strength res j hj

/-!
Claim theorems.
-/

/-- C1: the claim states that every frame emitted by the frame-building
pass of `sample_curve` is orthonormal whenever all sampled tangents are
non-degenerate.  The code violates this: each frame is appended before the
running normal is rotated onto the current tangent (source lines 121-129),
so on the corner curve (all tangents nonzero) frame 1 pairs tangent
`(0,0,1)` with the stale normal `(0,0,1)` and a zero binormal.  This
theorem evaluates the code at that failing input. -/
theorem C1_frame_pass_emits_non_orthonormal_frame :
    (∀ t ∈ sampledTangents cornerCurve 2, t ≠ (0 : Vec3)) ∧
    ¬ IsOrthoFrame ((sample_curve cornerCurve 2).2.1.getD 1 (0, 0, 0)) := by
  constructor
  · rw [cornerCurve_tangents]
    intro t ht
    simp only [List.mem_cons, List.not_mem_nil, or_false] at ht
    rcases ht with h | h | h <;> subst h <;> intro h0
    · have hx := congrArg Vec3.x h0
      norm_num at hx
    · have hz := congrArg Vec3.z h0
      norm_num at hz
    · have hz := congrArg Vec3.z h0
      norm_num at hz
  · rw [corner_frame1]
    intro h
    obtain ⟨-, -, -, h4, -⟩ := h
    norm_num [Vec3.dot] at h4

/-- C2, counterexample: on a curve with a zero-length tangent sample the
claim says sampling fails with a `DegenerateCurveError` rather than
returning a sample set; the code has no such error and returns a non-empty
sample set containing the zero tangent. -/
theorem C2_cex_degenerate_curve_returns_samples :
    (0 : Vec3) ∈ sampledTangents degenCurve 1 ∧
    (sample_curve degenCurve 1).1 ≠ [] := by
  constructor
  · rw [degenCurve_tangents]
    simp
  · exact degenCurve_points_ne

/-- C2, amended: a zero-length raw tangent is not an error: `normalized`
maps it to the zero vector, which is emitted in the tangent list, and
sampling still returns its sample set (non-empty as soon as one spline is
usable). -/
theorem C2_amended_zero_tangent_passes_through (c : CurveObj) (res : ℕ)
    (_hres : 1 ≤ res) :
    (∀ i, i < (curveSamplesRaw c res).length →
      ((curveSamplesRaw c res).getD i ((0 : Vec3), (0 : Vec3))).2 = 0 →
      (sampledTangents c res).getD i 0 = 0) ∧
    ((∃ sp ∈ c.splines, splineUsable sp) → (sample_curve c res).1 ≠ []) := by
  constructor
  · intro i hi hz
    unfold sampledTangents
    rw [getD_map _ (curveSamplesRaw c res) i ((0 : Vec3), (0 : Vec3)) _ hi]
    rw [hz, Vec3.normalized_zero]
  · rintro ⟨sp, hmem, husable⟩
    rw [sample_curve_fst]
    unfold sampledPoints
    intro hemp
    rw [List.map_eq_nil_iff] at hemp
    exact splinesSamples_ne c.matrix_world res c.splines sp hmem husable hemp

/-- C2 witness. -/
theorem C2_witness :
    1 ≤ 1 ∧ (sampledTangents degenCurve 1).getD 0 0 = 0 ∧
      (sample_curve degenCurve 1).1 ≠ [] := by
  refine ⟨le_rfl, ?_, ?_⟩
  · refine (C2_amended_zero_tangent_passes_through degenCurve 1 le_rfl).1 0 ?_ ?_
    · rw [degenCurve_raw]
      norm_num
    · rw [degenCurve_raw]
      rfl
  · refine (C2_amended_zero_tangent_passes_through degenCurve 1 le_rfl).2 ?_
    exact ⟨degenSpline, by simp [degenCurve], by norm_num [splineUsable, degenSpline]⟩

/-- C3, counterexample: with one cached rest coordinate but two live
vertices (a topology change after capture) the claim says `deform_object`
fails with a `TopologyMismatchError` and writes nothing; the code has no
such error, runs to completion, and rewrites vertex 0. -/
theorem C3_cex_mismatch_writes_vertices :
    (mismatchState.cache.orig_coords.getD []).length
        ≠ mismatchState.mesh.verts.length ∧
    (deform_object mismatchState lineCurve .X 0 0 1).mesh.verts
        = [⟨0, 0, 0⟩, ⟨0, 0, 5⟩] ∧
    (deform_object mismatchState lineCurve .X 0 0 1).mesh.verts
        ≠ mismatchState.mesh.verts := by
  refine ⟨by norm_num [mismatchState], mismatch_deform_verts, ?_⟩
  rw [mismatch_deform_verts]
  intro h
  have hh := congrArg (fun l => (l.getD 0 0).x) h
  norm_num [mismatchState] at hh

/-- C3, amended: `deform_object` performs no vertex-count check.  Python
`zip` truncates to the shorter of the live vertex list and the cached
coordinates: the call returns normally, the vertex count is preserved, and
every vertex at an index beyond the zipped prefix keeps its live value. -/
theorem C3_amended_zip_truncates (st : ObjState) (curve : CurveObj) (ax : Axis)
    (anim strength : ℝ) (res : ℕ)
    (hp : (sample_curve curve res).1 ≠ []) :
    (deform_object st curve ax anim strength res).mesh.verts.length
        = st.mesh.verts.length ∧
    ∀ j, min st.mesh.verts.length (origCoordsOf st).length ≤ j →
      j < st.mesh.verts.length →
      (deform_object st curve ax anim strength res).mesh.verts.getD j 0
        = st.mesh.verts.getD j 0 := by
  refine ⟨deform_verts_length st curve ax anim strength res, ?_⟩
  intro j hj _
  rw [deform_verts_of_nonempty st curve ax anim strength res hp]
  exact newVertsOf_getD_ge st curve ax anim strength res j hj

/-- C3 witness. -/
theorem C3_witness :
    (sample_curve lineCurve 1).1 ≠ [] ∧
    min mismatchState.mesh.verts.length (origCoordsOf mismatchState).length ≤ 1 ∧
    1 < mismatchState.mesh.verts.length ∧
    (deform_object mismatchState lineCurve .X 0 0 1).mesh.verts.getD 1 0
      = mismatchState.mesh.verts.getD 1 0 := by
  have horig : origCoordsOf mismatchState = [⟨9, 0, 0⟩] := rfl
  refine ⟨lineCurve_points_ne, by rw [horig]; norm_num [mismatchState],
    by norm_num [mismatchState], ?_⟩
  exact (C3_amended_zip_truncates mismatchState lineCurve .X 0 0 1
    lineCurve_points_ne).2 1 (by rw [horig]; norm_num [mismatchState])
    (by norm_num [mismatchState])

/-- C4, counterexample: with a cached coordinate list shorter than the live
mesh, `deform_object` commits a state in which vertex 0 has been rewritten
while vertex 1 keeps its live value: a partially-updated state, so the
all-or-nothing claim fails. -/
theorem C4_cex_partial_update_committed :
    (deform_object mismatchState lineCurve .X 0 0 1).mesh.verts
        ≠ mismatchState.mesh.verts ∧
    (deform_object mismatchState lineCurve .X 0 0 1).mesh.verts.getD 1 0
        = mismatchState.mesh.verts.getD 1 0 ∧
    (deform_object mismatchState lineCurve .X 0 0 1).mesh.verts.getD 0 0
        ≠ mismatchState.mesh.verts.getD 0 0 := by
  refine ⟨?_, ?_, ?_⟩
  · rw [mismatch_deform_verts]
    intro h
    have hh := congrArg (fun l => (l.getD 0 0).x) h
    norm_num [mismatchState] at hh
  · rw [mismatch_deform_verts]
    rfl
  · rw [mismatch_deform_verts]
    intro h
    have hh := congrArg Vec3.x h
    norm_num [mismatchState] at hh

/-- C4, amended: the all-or-nothing behaviour holds exactly when the cache
covers the live mesh: on the empty-sample early return the mesh is left
unmodified, and when the cached list is at least as long as the live vertex
list every vertex is rewritten to its computed position; a live mesh longer
than the cache receives a partial update instead (see the counterexample). -/
theorem C4_amended_all_or_nothing (st : ObjState) (curve : CurveObj) (ax : Axis)
    (anim strength : ℝ) (res : ℕ) :
    ((sample_curve curve res).1 = [] →
      (deform_object st curve ax anim strength res).mesh.verts = st.mesh.verts) ∧
    ((sample_curve curve res).1 ≠ [] →
      st.mesh.verts.length ≤ (origCoordsOf st).length →
      ∀ j, j < st.mesh.verts.length →
        (deform_object st curve ax anim strength res).mesh.verts.getD j 0 =
          deformVertex (sample_curve curve res).1 (sample_curve curve res).2.2
            (quatsOf curve res) (curveLenOf curve res)
            (axisIdx ax) (axisSign ax) (bboxMinOf st (axisIdx ax))
            (startPosOf st curve res (axisIdx ax) anim) strength
            (cachedMatrixOf st) st.mesh.matrix_world
            ((origCoordsOf st).getD j 0)) := by
  constructor
  · intro hp
    exact deform_verts_of_empty st curve ax anim strength res hp
  · intro hp hcover j hj
    exact deform_verts_getD st curve ax anim strength res j hp (by omega)

/-- C4 witness. -/
theorem C4_witness :
    (sample_curve lineCurve 1).1 ≠ [] ∧
    matchedState.mesh.verts.length ≤ (origCoordsOf matchedState).length ∧
    0 < matchedState.mesh.verts.length ∧
    (deform_object matchedState lineCurve .X 0 0 1).mesh.verts.getD 0 0 =
      deformVertex (sample_curve lineCurve 1).1 (sample_curve lineCurve 1).2.2
        (quatsOf lineCurve 1) (curveLenOf lineCurve 1)
        (axisIdx .X) (axisSign .X) (bboxMinOf matchedState (axisIdx .X))
        (startPosOf matchedState lineCurve 1 (axisIdx .X) 0) 0
        (cachedMatrixOf matchedState) matchedState.mesh.matrix_world
        ((origCoordsOf matchedState).getD 0 0) := by
  have horig : origCoordsOf matchedState = [⟨9, 0, 0⟩, ⟨0, 0, 9⟩] := rfl
  refine ⟨lineCurve_points_ne, by rw [horig]; norm_num [matchedState],
    by norm_num [matchedState], ?_⟩
  exact (C4_amended_all_or_nothing matchedState lineCurve .X 0 0 1).2
    lineCurve_points_ne (by rw [horig]; norm_num [matchedState]) 0
    (by norm_num [matchedState])

/-- C5: with a captured rest pose whose length matches the live vertex
count, any sequence of deformations leaves the stored rest coordinates
untouched, and `restore_original_coords` afterwards writes back exactly the
captured coordinates. -/
theorem C5_restore_roundtrip (st : ObjState) (L : List Vec3)
    (calls : List DeformCall)
    (h1 : st.cache.orig_coords = some L)
    (h2 : L.length = st.mesh.verts.length) :
    (applyCalls st calls).cache.orig_coords = some L ∧
    (restore_original_coords (applyCalls st calls)).mesh.verts = L := by
  obtain ⟨g1, g2⟩ := applyCalls_inv calls st h1 h2
  exact ⟨g1, restore_verts g1 g2⟩

/-- C5 witness. -/
theorem C5_witness :
    capturedState.cache.orig_coords = some [⟨1, 2, 3⟩] ∧
    ([(⟨1, 2, 3⟩ : Vec3)]).length = capturedState.mesh.verts.length ∧
    (applyCalls capturedState
        [⟨lineCurve, .X, 0, 0, 1⟩]).cache.orig_coords = some [⟨1, 2, 3⟩] ∧
    (restore_original_coords (applyCalls capturedState
        [⟨lineCurve, .X, 0, 0, 1⟩])).mesh.verts = [⟨1, 2, 3⟩] := by
  refine ⟨rfl, rfl, ?_, ?_⟩
  · exact (C5_restore_roundtrip capturedState [⟨1, 2, 3⟩] [⟨lineCurve, .X, 0, 0, 1⟩]
      rfl rfl).1
  · exact (C5_restore_roundtrip capturedState [⟨1, 2, 3⟩] [⟨lineCurve, .X, 0, 0, 1⟩]
      rfl rfl).2

/-- C6: deforming twice with identical parameters yields the same live
coordinates as deforming once: the pass reads only the cached rest
coordinates, never the already-deformed live mesh. -/
theorem C6_deform_idempotent (st : ObjState) (curve : CurveObj) (ax : Axis)
    (anim strength : ℝ) (res : ℕ) :
    (deform_object (deform_object st curve ax anim strength res)
        curve ax anim strength res).mesh.verts
      = (deform_object st curve ax anim strength res).mesh.verts := by
  cases hp : (sample_curve curve res).1 with
  | nil =>
      exact deform_verts_of_empty (deform_object st curve ax anim strength res)
        curve ax anim strength res hp
  | cons a l =>
      have hne : (sample_curve curve res).1 ≠ [] := by rw [hp]; simp
      rw [deform_verts_of_nonempty _ curve ax anim strength res hne,
        deform_verts_of_nonempty st curve ax anim strength res hne]
      exact newVertsOf_deform st curve ax anim strength res

/-- C7: for every curve whose sample set is non-empty, the arc-length table
has the same length as the point list, starts at zero, is non-decreasing,
and satisfies the cumulative-distance recurrence. -/
theorem C7_arc_table_spec (c : CurveObj) (res : ℕ)
    (_hne : (sample_curve c res).1 ≠ []) :
    (sample_curve c res).2.2.length = (sample_curve c res).1.length ∧
    (sample_curve c res).2.2.getD 0 0 = 0 ∧
    List.Chain' (· ≤ ·) (sample_curve c res).2.2 ∧
    (∀ i, i + 1 < (sample_curve c res).2.2.length →
      (sample_curve c res).2.2.getD (i + 1) 0 =
        (sample_curve c res).2.2.getD i 0 +
          ((sample_curve c res).1.getD (i + 1) 0
            - (sample_curve c res).1.getD i 0).length) := by
  rw [sample_curve_lengths, sample_curve_fst]
  refine ⟨arcLengths_length _, arcLengths_getD_zero _, arcLengths_chain _, ?_⟩
  intro i hi
  rw [arcLengths_length] at hi
  exact arcLengths_getD_succ _ i hi

/-- C7 witness. -/
theorem C7_witness :
    (sample_curve lineCurve 1).1 ≠ [] ∧
    (sample_curve lineCurve 1).2.2.length = (sample_curve lineCurve 1).1.length ∧
    (sample_curve lineCurve 1).2.2.getD 0 0 = 0 ∧
    List.Chain' (· ≤ ·) (sample_curve lineCurve 1).2.2 := by
  have h := C7_arc_table_spec lineCurve 1 lineCurve_points_ne
  exact ⟨lineCurve_points_ne, h.1, h.2.1, h.2.2.1⟩

/-- C8: in the per-vertex mapping of `deform_object`, a pre-clamp arc
position at or beyond the curve length interpolates exactly to the last
sample point, and a nonpositive one exactly to the first sample point
(`deformVertex` computes its position as
`interpPoint points (arcLengths points) (clampS curveLen s)`). -/
theorem C8_boundary_clamp (pts : List Vec3) (hne : pts ≠ []) (sPre : ℝ) :
    ((arcLengths pts).getLastD 0 ≤ sPre →
      interpPoint pts (arcLengths pts)
        (clampS ((arcLengths pts).getLastD 0) sPre) = pts.getLastD 0) ∧
    (sPre ≤ 0 →
      interpPoint pts (arcLengths pts)
        (clampS ((arcLengths pts).getLastD 0) sPre) = pts.headD 0) :=
  ⟨interpPoint_last pts hne sPre, interpPoint_first pts hne sPre⟩

theorem arcLengths_line : arcLengths [(⟨0, 0, 0⟩ : Vec3), ⟨4, 0, 0⟩] = [0, 4] := by
  have h := lineCurve_lengths
  rw [sample_curve_lengths, lineCurve_points] at h
  exact h

/-- C8 witness. -/
theorem C8_witness :
    ([(⟨0, 0, 0⟩ : Vec3), ⟨4, 0, 0⟩] ≠ []) ∧
    (arcLengths [(⟨0, 0, 0⟩ : Vec3), ⟨4, 0, 0⟩]).getLastD 0 ≤ 9 ∧
    interpPoint [(⟨0, 0, 0⟩ : Vec3), ⟨4, 0, 0⟩]
      (arcLengths [(⟨0, 0, 0⟩ : Vec3), ⟨4, 0, 0⟩])
      (clampS ((arcLengths [(⟨0, 0, 0⟩ : Vec3), ⟨4, 0, 0⟩]).getLastD 0) 9)
      = ([(⟨0, 0, 0⟩ : Vec3), ⟨4, 0, 0⟩]).getLastD 0 := by
  have hle : (arcLengths [(⟨0, 0, 0⟩ : Vec3), ⟨4, 0, 0⟩]).getLastD 0 ≤ 9 := by
    rw [arcLengths_line]
    norm_num
  exact ⟨by simp, hle,
    (C8_boundary_clamp [⟨0, 0, 0⟩, ⟨4, 0, 0⟩] (by simp) 9).1 hle⟩

/-- C9: for a negative-axis parameter the basis matrix obtained from the
slerped orientation is used with exactly its first row (the tangent slot of
the frame basis) negated, and for the paired positive axis (same
`axisIdx`) the same basis matrix is used unmodified; every other quantity
of the per-vertex computation coincides between the two runs. -/
theorem C9_negative_axis_negates_row0 (st : ObjState) (curve : CurveObj)
    (anim strength : ℝ) (res : ℕ) (pos neg : Axis)
    (hidx : axisIdx neg = axisIdx pos)
    (hpos : axisSign pos = 1) (hneg : axisSign neg = -1)
    (j : ℕ) (hp : (sample_curve curve res).1 ≠ [])
    (hj : j < min st.mesh.verts.length (origCoordsOf st).length) :
    (deform_object st curve neg anim strength res).mesh.verts.getD j 0 =
      st.mesh.matrix_world.inv.apply
        (interpPoint (sample_curve curve res).1 (sample_curve curve res).2.2
            (clampS (curveLenOf curve res)
              (startPosOf st curve res (axisIdx pos) anim +
                (((origCoordsOf st).getD j 0).get (axisIdx pos)
                  - bboxMinOf st (axisIdx pos)))) +
          strength •
            (negRow0 (quatToMat (slerpQuat (quatsOf curve res)
              (sample_curve curve res).2.2
              (clampS (curveLenOf curve res)
                (startPosOf st curve res (axisIdx pos) anim +
                  (((origCoordsOf st).getD j 0).get (axisIdx pos)
                    - bboxMinOf st (axisIdx pos))))))).mulVec
              ((cachedMatrixOf st).lin.mulVec
                (((origCoordsOf st).getD j 0).set (axisIdx pos) 0))) ∧
    (deform_object st curve pos anim strength res).mesh.verts.getD j 0 =
      st.mesh.matrix_world.inv.apply
        (interpPoint (sample_curve curve res).1 (sample_curve curve res).2.2
            (clampS (curveLenOf curve res)
              (startPosOf st curve res (axisIdx pos) anim +
                (((origCoordsOf st).getD j 0).get (axisIdx pos)
                  - bboxMinOf st (axisIdx pos)))) +
          strength •
            (quatToMat (slerpQuat (quatsOf curve res)
              (sample_curve curve res).2.2
              (clampS (curveLenOf curve res)
                (startPosOf st curve res (axisIdx pos) anim +
                  (((origCoordsOf st).getD j 0).get (axisIdx pos)
                    - bboxMinOf st (axisIdx pos)))))).mulVec
              ((cachedMatrixOf st).lin.mulVec
                (((origCoordsOf st).getD j 0).set (axisIdx pos) 0))) := by
  constructor
  · rw [deform_verts_getD st curve neg anim strength res j hp hj]
    simp only [deformVertex, hidx, hneg]
    simp only [if_true, eq_self_iff_true]
  · rw [deform_verts_getD st curve pos anim strength res j hp hj]
    simp only [deformVertex, hpos]
    rw [if_neg (by decide : ¬(1 : ℤ) = -1)]

/-- C9 witness. -/
theorem C9_witness :
    axisIdx Axis.negX = axisIdx Axis.X ∧ axisSign Axis.X = 1 ∧
    axisSign Axis.negX = -1 ∧ (sample_curve lineCurve 1).1 ≠ [] ∧
    0 < min mismatchState.mesh.verts.length (origCoordsOf mismatchState).length ∧
    (deform_object mismatchState lineCurve .negX 2 3 1).mesh.verts.getD 0 0 =
      mismatchState.mesh.matrix_world.inv.apply
        (interpPoint (sample_curve lineCurve 1).1 (sample_curve lineCurve 1).2.2
            (clampS (curveLenOf lineCurve 1)
              (startPosOf mismatchState lineCurve 1 (axisIdx Axis.X) 2 +
                (((origCoordsOf mismatchState).getD 0 0).get (axisIdx Axis.X)
                  - bboxMinOf mismatchState (axisIdx Axis.X)))) +
          (3 : ℝ) •
            (negRow0 (quatToMat (slerpQuat (quatsOf lineCurve 1)
              (sample_curve lineCurve 1).2.2
              (clampS (curveLenOf lineCurve 1)
                (startPosOf mismatchState lineCurve 1 (axisIdx Axis.X) 2 +
                  (((origCoordsOf mismatchState).getD 0 0).get (axisIdx Axis.X)
                    - bboxMinOf mismatchState (axisIdx Axis.X))))))).mulVec
              ((cachedMatrixOf mismatchState).lin.mulVec
                (((origCoordsOf mismatchState).getD 0 0).set (axisIdx Axis.X) 0))) := by
  have horig : origCoordsOf mismatchState = [⟨9, 0, 0⟩] := rfl
  have hj : 0 < min mismatchState.mesh.verts.length
      (origCoordsOf mismatchState).length := by
    rw [horig]
    norm_num [mismatchState]
  exact ⟨rfl, rfl, rfl, lineCurve_points_ne, hj,
    (C9_negative_axis_negates_row0 mismatchState lineCurve 2 3 1 .X .negX
      rfl rfl rfl 0 lineCurve_points_ne hj).1⟩

/-- C10: with two usable splines the sample points are concatenated in
spline order and the single cumulative table runs over the concatenation
with no reset: the entry at the first index of the second spline adds the
Euclidean gap between the last sample of the first spline and the first
sample of the second. -/
theorem C10_gap_consumes_arc_length (M : Aff) (a b : Spline) (res : ℕ)
    (ha : splineUsable a) (hb : splineUsable b) :
    (sample_curve ⟨M, [a, b]⟩ res).2.2
        = arcLengths (sampledPoints ⟨M, [a, b]⟩ res) ∧
    sampledPoints ⟨M, [a, b]⟩ res
        = (sampleSplineRaw M a res).map Prod.fst
          ++ (sampleSplineRaw M b res).map Prod.fst ∧
    (arcLengths (sampledPoints ⟨M, [a, b]⟩ res)).getD (res + 1) 0
        = (arcLengths (sampledPoints ⟨M, [a, b]⟩ res)).getD res 0 +
          ((sampledPoints ⟨M, [a, b]⟩ res).getD (res + 1) 0
            - (sampledPoints ⟨M, [a, b]⟩ res).getD res 0).length ∧
    (sampledPoints ⟨M, [a, b]⟩ res).getD res 0
        = ((sampleSplineRaw M a res).map Prod.fst).getLastD 0 ∧
    (sampledPoints ⟨M, [a, b]⟩ res).getD (res + 1) 0
        = ((sampleSplineRaw M b res).map Prod.fst).headD 0 := by
  have hsplit : sampledPoints ⟨M, [a, b]⟩ res
      = (sampleSplineRaw M a res).map Prod.fst
        ++ (sampleSplineRaw M b res).map Prod.fst := by
    unfold sampledPoints curveSamplesRaw
    simp only [splinesSamples]
    rw [List.append_nil, List.map_append]
  have hla : ((sampleSplineRaw M a res).map Prod.fst).length = res + 1 := by
    rw [List.length_map, sampleSplineRaw_length M a res ha]
  have hlb : ((sampleSplineRaw M b res).map Prod.fst).length = res + 1 := by
    rw [List.length_map, sampleSplineRaw_length M b res hb]
  have hlen : (sampledPoints ⟨M, [a, b]⟩ res).length = 2 * res + 2 := by
    rw [hsplit, List.length_append, hla, hlb]
    omega
  refine ⟨sample_curve_lengths _ res, hsplit, ?_, ?_, ?_⟩
  · exact arcLengths_getD_succ _ res (by omega)
  · rw [hsplit, getD_append_lt 0 _ _ res (by omega)]
    rw [getLastD_eq_getD _ 0 (by intro hh; rw [hh] at hla; simp at hla), hla]
    have hr : res + 1 - 1 = res := by omega
    rw [hr]
  · rw [hsplit, getD_append_ge 0 _ _ (res + 1) (by omega)]
    rw [headD_eq_getD _ 0 (by intro hh; rw [hh] at hlb; simp at hlb), hla]
    congr 1
    omega

/-- C10 witness. -/
theorem C10_witness :
    splineUsable lineSpline ∧ splineUsable gapSpline ∧
    (sample_curve ⟨affId, [lineSpline, gapSpline]⟩ 1).2.2
      = arcLengths (sampledPoints ⟨affId, [lineSpline, gapSpline]⟩ 1) ∧
    (arcLengths (sampledPoints ⟨affId, [lineSpline, gapSpline]⟩ 1)).getD 2 0
      = (arcLengths (sampledPoints ⟨affId, [lineSpline, gapSpline]⟩ 1)).getD 1 0 +
        ((sampledPoints ⟨affId, [lineSpline, gapSpline]⟩ 1).getD 2 0
          - (sampledPoints ⟨affId, [lineSpline, gapSpline]⟩ 1).getD 1 0).length := by
  have ha : splineUsable lineSpline := by norm_num [splineUsable, lineSpline]
  have hb : splineUsable gapSpline := by norm_num [splineUsable, gapSpline]
  have h := C10_gap_consumes_arc_length affId lineSpline gapSpline 1 ha hb
  exact ⟨ha, hb, h.1, h.2.2.1⟩
